import Mathlib

set_option maxRecDepth 40000

/-!
Shallow embedding of the llm-eval-runner evaluation engine
(TypeScript sources under src/), together with theorems checking the
natural-language specification against the code.

Strings are modelled as `List Char` so that every operation is an
executable structural recursion; JavaScript string semantics (trim,
whitespace collapse, regex-based splitting) are reproduced explicitly.
Scores are modelled as `ℚ`.
-/

namespace EvalRunner

/-- Issue severity, from src/types.ts (`Severity`). -/
inductive Severity where
  | critical
  | major
  | minor
deriving DecidableEq, Repr

/-- Issue type, from src/types.ts (`IssueType`). -/
inductive IssueType where
  | MISTRANSLATION
  | OMISSION
  | ADDITION
  | TERM_INCONSISTENCY
  | PRONOUN_REFERENCE
  | SPEAKER_MISMATCH
  | STYLE_VIOLATION
  | FORMAT_VIOLATION
  | SAFETY_OR_POLICY
  | OTHER
deriving DecidableEq, Repr

/-- A reviewer-found defect, from src/types.ts (`Issue`).
Optional fields that no claim mentions are omitted. -/
structure Issue where
  id : String
  type : IssueType
  severity : Severity
  rationale : String
  fixSuggestion : String
  confidence : ℚ
deriving DecidableEq, Repr

/-- One deterministic rule outcome, from src/types.ts (`HardCheckResult`). -/
structure HardCheckResult where
  id : String
  passed : Bool
  description : String
  details : Option String
deriving DecidableEq, Repr

/-- Judge rubric, from src/types.ts (`ScoreBreakdown`). -/
structure ScoreBreakdown where
  adequacy : ℚ
  fluency : ℚ
  constraintCompliance : ℚ
  styleFit : ℚ
  overall : ℚ
deriving DecidableEq, Repr

/-- Glossary entry, from the `glossary` member of `constraintSchema`
in src/types.ts.  `strict` is optional in the schema. -/
structure GlossaryEntry where
  ja : List Char
  en : List Char
  strict : Option Bool
deriving DecidableEq, Repr

/-- The `format` member of `constraintSchema` in src/types.ts. -/
structure FormatConstraints where
  keepLineBreaks : Option Bool
  maxChars : Option Nat
  noExtraPrefixSuffix : Option Bool
deriving DecidableEq, Repr

/-- Normalized constraint record, from `constraintSchema` in src/types.ts. -/
structure Constraints where
  targetLang : List Char
  tone : Option (List Char)
  register : Option (List Char)
  readingLevel : Option (List Char)
  format : FormatConstraints
  glossary : List GlossaryEntry
  bannedPatterns : List (List Char)
  allowJapaneseTokens : List (List Char)
deriving DecidableEq, Repr

/-- Extracted translation state, from src/types.ts (`TranslationState`). -/
structure TranslationState where
  utterance : List Char
  speaker : List Char
  addressee : Option (List Char)
  entities : List (List Char × Option (List Char))
  coreMeaning : List Char
  implicature : Option (List Char)
deriving DecidableEq, Repr

/-- A dataset sample, from src/types.ts (`DatasetSample`); `text` is
`ja.text`, `context` is `ja.context`, `reference` is `reference.en`. -/
structure Sample where
  id : String
  text : List Char
  context : Option (List Char)
  reference : Option (List Char)
deriving DecidableEq, Repr

/-- Pipeline condition, from src/types.ts (`conditionOrder`). -/
inductive Condition where
  | A0
  | A1
  | A2
  | A3
deriving DecidableEq, Repr

/-- Run status as declared in src/types.ts for `RunRecord.status`:
only `ok` and `needs_review` exist in the engine's record type. -/
inductive Status where
  | ok
  | needs_review
deriving DecidableEq, Repr

/-- `needsState` from the runner (unnamed part, `PipelineRunner` module):
conditions A1 and A3 build state. -/
def needsState : Condition → Bool
  | .A1 => true
  | .A3 => true
  | _ => false

/-- `needsVerify` from the runner: conditions A2 and A3 run the
verify-repair loop. -/
def needsVerify : Condition → Bool
  | .A2 => true
  | .A3 => true
  | _ => false

/-! ### JavaScript string semantics -/

/-- JavaScript regex `\s` character class, by codepoint: space, tab,
LF, CR, VT, FF, NBSP, Ogham space, the Unicode space separators, line
and paragraph separators, narrow and medium spaces, ideographic space,
BOM. -/
def jsIsSpace (c : Char) : Bool :=
  c.toNat = 32 || c.toNat = 9 || c.toNat = 10 || c.toNat = 13 ||
  c.toNat = 11 || c.toNat = 12 || c.toNat = 160 || c.toNat = 0x1680 ||
  (0x2000 ≤ c.toNat && c.toNat ≤ 0x200a) ||
  c.toNat = 0x2028 || c.toNat = 0x2029 || c.toNat = 0x202f ||
  c.toNat = 0x205f || c.toNat = 0x3000 || c.toNat = 0xfeff

/-- JavaScript regex `\w` character class (`[A-Za-z0-9_]`), by
codepoint. -/
def jsIsWordChar (c : Char) : Bool :=
  (97 ≤ c.toNat && c.toNat ≤ 122) || (65 ≤ c.toNat && c.toNat ≤ 90) ||
  (48 ≤ c.toNat && c.toNat ≤ 57) || c.toNat = 95

/-- `String.prototype.trim`: drop `\s` characters from both ends. -/
def jsTrim (cs : List Char) : List Char :=
  ((cs.dropWhile jsIsSpace).reverse.dropWhile jsIsSpace).reverse

theorem lengthDropWhileLe {α : Type} (p : α → Bool) (l : List α) :
    (l.dropWhile p).length ≤ l.length := by
  induction l with
  | nil => simp [List.dropWhile]
  | cons a l ih =>
    by_cases h : p a
    · simp only [List.dropWhile, h]
      exact Nat.le_succ_of_le ih
    · simp [List.dropWhile, h]

/-- Scanner for `replace(/\s+/g, " ")`: `inRun` records whether the
previous character belonged to the whitespace run being replaced. -/
def collapseWsAux (inRun : Bool) : List Char → List Char
  | [] => []
  | c :: rest =>
    if jsIsSpace c then
      if inRun then collapseWsAux true rest
      else ' ' :: collapseWsAux true rest
    else c :: collapseWsAux false rest

/-- `replace(/\s+/g, " ")`: collapse every maximal whitespace run to a
single space. -/
def collapseWs (cs : List Char) : List Char :=
  collapseWsAux false cs

/-- Scanner for `split(/\s+/)`: `inSep` records whether the previous
character belonged to the current separator run, `current` the reversed
token being accumulated. -/
def wsSplitAux (inSep : Bool) (current : List Char) : List Char → List (List Char)
  | [] => [current.reverse]
  | c :: rest =>
    if jsIsSpace c then
      if inSep then wsSplitAux true [] rest
      else current.reverse :: wsSplitAux true [] rest
    else wsSplitAux false (c :: current) rest

/-- `split(/\s+/)`: split on maximal whitespace runs; like JavaScript,
a leading or trailing run contributes an empty token. -/
def wsSplit (cs : List Char) : List (List Char) :=
  wsSplitAux false [] cs

/-- Boolean starts-with test on character lists. -/
def startsWithList : List Char → List Char → Bool
  | [], _ => true
  | _ :: _, [] => false
  | p :: ps, c :: cs => p = c && startsWithList ps cs

/-- `String.prototype.includes` / regex literal search: `needle` occurs
as a contiguous substring of `hay`. -/
def containsSub (hay needle : List Char) : Bool :=
  if startsWithList needle hay then true
  else
    match hay with
    | [] => false
    | _ :: rest => containsSub rest needle

/-- ASCII lower-casing, the fragment of `toLowerCase` / the `i` regex
flag exercised by this codebase. -/
def asciiLower (c : Char) : Char :=
  if 'A' ≤ c && c ≤ 'Z' then Char.ofNat (c.toNat + 32) else c

/-- Count occurrences of a character (the `match(/\n/g)` counts). -/
def countChar (c : Char) (cs : List Char) : Nat :=
  (cs.filter (fun x => x = c)).length

/-! ### Hard-check engine (src/pipeline/hardChecks.ts) -/

/-- `HardCheckSettings` from src/pipeline/hardChecks.ts. -/
structure HardCheckSettings where
  noDisallowedJapanese : Bool
  glossaryStrictMatches : Bool
  maxLength : Option Nat
  noMetaTalk : Bool
  formatPreserved : Bool
deriving DecidableEq, Repr

/-- `HardCheckRequest` from src/pipeline/hardChecks.ts; `sourceText`
is `request.sample.ja.text` (the only sample field the engine reads). -/
structure HardCheckRequest where
  translation : List Char
  sourceText : List Char
  constraints : Constraints
deriving DecidableEq, Repr

/-- `containsJapanese` from src/pipeline/hardChecks.ts: the regex
character class covering Hiragana/Katakana (U+3040 to U+30FF) and the
CJK Unified Ideographs (U+4E00 to U+9FAF). -/
def containsJapaneseChar (c : Char) : Bool :=
  (0x3040 ≤ c.toNat && c.toNat ≤ 0x30ff) || (0x4e00 ≤ c.toNat && c.toNat ≤ 0x9faf)

/-- `containsJapanese(text)`: some character is in the class above. -/
def containsJapanese (cs : List Char) : Bool :=
  cs.any containsJapaneseChar

/-- `HardCheckEngine.run`, rule by rule in source order.  The `limit`
for the maxLength rule is `constraints.format.maxChars ?? settings.maxLength`
and the rule is emitted under JavaScript truthiness (`if (limit)`), so a
zero limit emits nothing. -/
def hardCheckRun (settings : HardCheckSettings) (req : HardCheckRequest) :
    List HardCheckResult :=
  (if settings.noDisallowedJapanese then
    let offending := (wsSplit req.translation).filter
      (fun token => containsJapanese token &&
        !(req.constraints.allowJapaneseTokens.contains token))
    [{ id := "noDisallowedJapanese",
       passed := offending.isEmpty,
       description := "English output should not include JP tokens unless allowed",
       details := some (String.mk (List.intercalate (", ".toList) offending)) }]
   else []) ++
  (if settings.glossaryStrictMatches then
    let missing := (req.constraints.glossary.filter
        (fun entry => entry.strict.getD false)).filter
      (fun entry => !containsSub req.translation entry.en)
    [{ id := "glossaryStrictMatches",
       passed := missing.isEmpty,
       description := "Strict glossary terms must appear in translation",
       details := some (String.mk (List.intercalate (", ".toList)
         (missing.map (fun m => m.ja ++ ("->".toList) ++ m.en)))) }]
   else []) ++
  (match req.constraints.format.maxChars <|> settings.maxLength with
   | some limit =>
     if limit ≠ 0 then
       [{ id := "maxLength",
          passed := req.translation.length ≤ limit,
          description := "Translation must be <= " ++ toString limit ++ " chars",
          details := some (toString req.translation.length) }]
     else []
   | none => []) ++
  (if settings.noMetaTalk then
    let meta := containsSub (req.translation.map asciiLower) ("as an ai".toList)
    [{ id := "noMetaTalk",
       passed := !meta,
       description := "Model should not mention itself",
       details := none }]
   else []) ++
  (if settings.formatPreserved && req.constraints.format.keepLineBreaks.getD false then
    let sourceBreaks := countChar '\n' req.sourceText
    let targetBreaks := countChar '\n' req.translation
    [{ id := "formatPreserved",
       passed := sourceBreaks = targetBreaks,
       description := "Line break count should match source",
       details := some (toString sourceBreaks ++ " vs " ++ toString targetBreaks) }]
   else [])

/-! ### Verifier (src/pipeline/verifier.ts) -/

/-- The issue `Verifier.verify` synthesizes from a failing hard check. -/
def hardIssueOfCheck (sampleId : String) (check : HardCheckResult) : Issue :=
  { id := check.id ++ "-" ++ sampleId,
    type := if check.id = "formatPreserved" then .FORMAT_VIOLATION else .STYLE_VIOLATION,
    severity := if check.id = "noDisallowedJapanese" then .major else .minor,
    rationale := check.description,
    fixSuggestion := "Follow the constraint described",
    confidence := 4/5 }

/-- Result of `Verifier.verify` (usage tokens omitted). -/
structure VerificationResult where
  issues : List Issue
  hardChecks : List HardCheckResult
deriving DecidableEq, Repr

/-- `Verifier.verify`: run the hard checks, synthesize one issue per
failing check, and append the LLM reviewer issues (`llmIssues`; the
empty list when no LLM is configured or its JSON fails to parse). -/
def verifierVerify (settings : HardCheckSettings) (sampleId : String)
    (req : HardCheckRequest) (llmIssues : List Issue) : VerificationResult :=
  let hardChecks := hardCheckRun settings req
  let hardIssues := (hardChecks.filter (fun c => !c.passed)).map
    (hardIssueOfCheck sampleId)
  { issues := hardIssues ++ llmIssues, hardChecks := hardChecks }

/-! ### Orchestrator (`PipelineRunner.processSample` / `run`, unnamed part) -/

/-- The status computation at the end of `processSample`: needs_review
iff some issue of the final verification is critical or some hard check
failed. -/
def statusOf (v : VerificationResult) : Status :=
  if v.issues.any (fun issue => decide (issue.severity = .critical)) ||
     v.hardChecks.any (fun hc => !hc.passed)
  then .needs_review else .ok

/-- The deterministic pipeline stage functions `processSample` awaits.
Each models the corresponding component (state builder, translator,
verifier LLM reviewer, repairer, judge) together with whatever LLM
client sits behind it. -/
structure Stages where
  buildState : Sample → TranslationState
  translate : Sample → Constraints → Option TranslationState → List Char
  verifyLLM : Sample → List Char → Constraints → Option TranslationState → List Issue
  repair : Sample → List Char → List Issue → Constraints → Option TranslationState → List Char
  judge : Sample → List Char → Constraints → Option TranslationState → ScoreBreakdown

/-- The `while (attempt < maxRepairs)` verify-repair loop of
`processSample`, with `fuel = maxRepairs - attempt`.  Returns the final
translation and verification plus the number of repair iterations
executed (the code records one `repair_i` timing key per iteration). -/
def repairLoop (verify : List Char → VerificationResult)
    (repairFn : List Char → List Issue → List Char) :
    Nat → List Char → VerificationResult → List Char × VerificationResult × Nat
  | 0, current, verification => (current, verification, 0)
  | fuel + 1, current, verification =>
    let hasCritical := verification.issues.any (fun issue => decide (issue.severity = .critical))
    let hardFail := verification.hardChecks.any (fun hc => !hc.passed)
    if hasCritical || hardFail then
      let repaired := repairFn current verification.issues
      let next := repairLoop verify repairFn fuel repaired (verify repaired)
      (next.1, next.2.1, next.2.2 + 1)
    else (current, verification, 0)

/-- The assembled `RunRecord` (fields the claims are about).
`repairCount` stands for the set of `repair_i` timing keys in
`timingMs.stages`: the code writes exactly one key per iteration. -/
structure RunRecordM where
  runId : String
  condition : Condition
  id : String
  draft : List Char
  final : List Char
  verifier : VerificationResult
  hardScores : List (String × Bool)
  judgeScores : ScoreBreakdown
  overall : ℚ
  state : Option TranslationState
  status : Status
  repairCount : Nat
deriving DecidableEq, Repr

/-- `PipelineRunner.processSample` for one (sample, condition) pair.
`constraints` is the result of `ConstraintNormalizer.normalize` for the
sample (normalization itself is a zod-schema merge no claim depends on,
so the record is passed in already normalized). -/
def processSample (stages : Stages) (settings : HardCheckSettings)
    (maxRepairs : Nat) (runId : String) (sample : Sample)
    (condition : Condition) (constraints : Constraints) : RunRecordM :=
  let state := if needsState condition then some (stages.buildState sample) else none
  let draft := stages.translate sample constraints state
  let verify := fun (t : List Char) => verifierVerify settings sample.id
    { translation := t, sourceText := sample.text, constraints := constraints }
    (stages.verifyLLM sample t constraints state)
  let v0 := verify draft
  let loopResult :=
    if needsVerify condition then
      repairLoop verify
        (fun cur issues => stages.repair sample cur issues constraints state)
        maxRepairs draft v0
    else (draft, v0, 0)
  let current := loopResult.1
  let verification := loopResult.2.1
  let scores := stages.judge sample current constraints state
  { runId := runId,
    condition := condition,
    id := sample.id,
    draft := draft,
    final := current,
    verifier := verification,
    hardScores := verification.hardChecks.map (fun c => (c.id, c.passed)),
    judgeScores := scores,
    overall := scores.overall,
    state := state,
    status := statusOf verification,
    repairCount := loopResult.2.2 }

/-! ### Exception-aware orchestration (for `PipelineRunner.run`)

`processSample` contains no try/catch: any stage that throws makes the
whole pair's task reject.  `run` pushes one task per (sample, condition)
pair into a `p-limit` pool, appends each completed record to the JSONL
write chain, and finally `Promise.all`s the tasks — a rejected task
therefore writes nothing for its pair and the rejection propagates out
of `run`.  Stage functions here return `Except`; the error string models
the thrown exception's message. -/

/-- Fallible pipeline stages (each `await` may throw). -/
structure StagesE where
  buildState : Sample → Except String TranslationState
  translate : Sample → Constraints → Option TranslationState → Except String (List Char)
  verifyLLM : Sample → List Char → Constraints → Option TranslationState → Except String (List Issue)
  repair : Sample → List Char → List Issue → Constraints → Option TranslationState → Except String (List Char)
  judge : Sample → List Char → Constraints → Option TranslationState → Except String ScoreBreakdown

/-- The verify-repair loop when stages may throw. -/
def repairLoopE (verify : List Char → Except String VerificationResult)
    (repairFn : List Char → List Issue → Except String (List Char)) :
    Nat → List Char → VerificationResult →
      Except String (List Char × VerificationResult × Nat)
  | 0, current, verification => .ok (current, verification, 0)
  | fuel + 1, current, verification =>
    let hasCritical := verification.issues.any (fun issue => decide (issue.severity = .critical))
    let hardFail := verification.hardChecks.any (fun hc => !hc.passed)
    if hasCritical || hardFail then do
      let repaired ← repairFn current verification.issues
      let v2 ← verify repaired
      let next ← repairLoopE verify repairFn fuel repaired v2
      pure (next.1, next.2.1, next.2.2 + 1)
    else .ok (current, verification, 0)

/-- `processSample` with fallible stages: the exception of the first
failing stage propagates (there is no try/catch in the method). -/
def processSampleE (stages : StagesE) (settings : HardCheckSettings)
    (maxRepairs : Nat) (runId : String) (sample : Sample)
    (condition : Condition) (constraints : Constraints) :
    Except String RunRecordM := do
  let state ← if needsState condition
    then do pure (some (← stages.buildState sample))
    else pure none
  let draft ← stages.translate sample constraints state
  let verify := fun (t : List Char) => do
    let llmIssues ← stages.verifyLLM sample t constraints state
    pure (verifierVerify settings sample.id
      { translation := t, sourceText := sample.text, constraints := constraints }
      llmIssues)
  let v0 ← verify draft
  let loopResult ←
    if needsVerify condition then
      repairLoopE verify
        (fun cur issues => stages.repair sample cur issues constraints state)
        maxRepairs draft v0
    else pure (draft, v0, 0)
  let current := loopResult.1
  let verification := loopResult.2.1
  let scores ← stages.judge sample current constraints state
  pure
    { runId := runId,
      condition := condition,
      id := sample.id,
      draft := draft,
      final := current,
      verifier := verification,
      hardScores := verification.hardChecks.map (fun c => (c.id, c.passed)),
      judgeScores := scores,
      overall := scores.overall,
      state := state,
      status := statusOf verification,
      repairCount := loopResult.2.2 }

/-- `PipelineRunner.run` over the (sample, condition) grid: the JSONL
sink receives exactly the records of the pairs whose task completed;
a pair whose stage threw contributes nothing, and `Promise.all`
surfaces the (first, in grid order here) rejection. -/
def runPairs (stages : StagesE) (settings : HardCheckSettings)
    (maxRepairs : Nat) (runId : String) (dataset : List Sample)
    (conditions : List Condition) (constraintsOf : Sample → Constraints) :
    List RunRecordM × Option String :=
  let outcomes := (dataset.map (fun s => conditions.map (fun c =>
    processSampleE stages settings maxRepairs runId s c (constraintsOf s)))).flatten
  (outcomes.filterMap (fun o => o.toOption),
   outcomes.findSome? (fun o => match o with
     | .error e => some e
     | .ok _ => none))

/-! ### Templater (`renderTemplate`, unnamed part src/utils/template.ts) -/

/-- The two brace characters of a placeholder token. -/
def lbrace : Char := Char.ofNat 123

def rbrace : Char := Char.ofNat 125

/-- Leftmost match of the placeholder regex at the start of `cs`:
two open braces, optional whitespace, a nonempty word-character name,
optional whitespace, two close braces.  Returns the name and the rest of
the input.  Maximal-munch is exact here because the word and whitespace
classes are disjoint from each other and from the brace. -/
def matchPlaceholder (cs : List Char) : Option (String × List Char) :=
  match cs with
  | c1 :: c2 :: rest =>
    if c1 = lbrace && c2 = lbrace then
      let afterWs := rest.dropWhile jsIsSpace
      let name := afterWs.takeWhile jsIsWordChar
      let afterName := afterWs.dropWhile jsIsWordChar
      if name.isEmpty then none
      else
        match afterName.dropWhile jsIsSpace with
        | d1 :: d2 :: tail =>
          if d1 = rbrace && d2 = rbrace then some (String.mk name, tail) else none
        | _ => none
    else none
  | _ => none

theorem matchPlaceholderLength {cs : List Char} {nameTail : String × List Char}
    (h : matchPlaceholder cs = some nameTail) : nameTail.2.length < cs.length := by
  match cs with
  | [] => simp [matchPlaceholder] at h
  | [c] => simp [matchPlaceholder] at h
  | c1 :: c2 :: rest =>
    simp only [matchPlaceholder] at h
    split at h
    case isTrue =>
      split at h
      case isTrue => exact absurd h (by simp)
      case isFalse =>
        have hws : (rest.dropWhile jsIsSpace).length ≤ rest.length :=
          lengthDropWhileLe _ _
        have hwd : ((rest.dropWhile jsIsSpace).dropWhile jsIsWordChar).length ≤
            (rest.dropWhile jsIsSpace).length := lengthDropWhileLe _ _
        have hws2 : (((rest.dropWhile jsIsSpace).dropWhile jsIsWordChar).dropWhile
            jsIsSpace).length ≤
            ((rest.dropWhile jsIsSpace).dropWhile jsIsWordChar).length :=
          lengthDropWhileLe _ _
        split at h
        case h_1 d1 d2 tail heq =>
          split at h
          case isTrue =>
            have := congrArg Prod.snd (Option.some.inj h)
            subst this
            have hlen := congrArg List.length heq
            simp only [List.length_cons] at hlen
            simp only [List.length_cons]
            omega
          case isFalse => exact absurd h (by simp)
        case h_2 => exact absurd h (by simp)
    case isFalse => exact absurd h (by simp)

/-- Fuelled scanner for `renderTemplate`; a matched placeholder always
consumes at least one character, so fuel at least the input length
makes the zero-fuel branch unreachable. -/
def renderTemplateAux (vars : String → Option (List Char)) :
    Nat → List Char → List Char
  | 0, _ => []
  | _ + 1, [] => []
  | fuel + 1, c :: rest =>
    match matchPlaceholder (c :: rest) with
    | some nameTail => (vars nameTail.1).getD [] ++ renderTemplateAux vars fuel nameTail.2
    | none => c :: renderTemplateAux vars fuel rest

/-- `renderTemplate` from the templater: scan the template, replacing
each placeholder with the variable's value; a missing (undefined) or
null variable renders as the empty string.  Unmatched text is copied
verbatim; single pass, no escaping. -/
def renderTemplate (vars : String → Option (List Char)) (template : List Char) :
    List Char :=
  renderTemplateAux vars template.length template

/-! ### Mock provider (src/llm/mock.ts) -/

/-- Message roles of the LLM request contract (src/llm/base.ts). -/
inductive Role where
  | system
  | user
  | assistant
deriving DecidableEq, Repr

/-- One chat message. -/
structure LLMMessage where
  role : Role
  content : List Char
deriving DecidableEq, Repr

/-- Japanese-punctuation-to-ASCII substitution of `rudimentaryTranslate`
in src/llm/mock.ts. -/
def substPunct (c : Char) : Char :=
  if c = '。' then '.'
  else if c = '、' then ','
  else if c = '！' then '!'
  else if c = '？' then '?'
  else c

/-- `rudimentaryTranslate`: substitute punctuation, trim, collapse
whitespace runs to single spaces. -/
def rudimentaryTranslate (cs : List Char) : List Char :=
  collapseWs (jsTrim (cs.map substPunct))

/-- `MockLLMClient.generate`: apply `rudimentaryTranslate` to the last
user message's content (empty output when there is none). -/
def mockGenerate (messages : List LLMMessage) : List Char :=
  match messages.reverse.find? (fun m => decide (m.role = .user)) with
  | some m => rudimentaryTranslate m.content
  | none => []

/-! ### Translator (src/pipeline/translator.ts) -/

/-- `constraintsToMarkdown` from src/pipeline/translator.ts: one line
per populated field, JavaScript truthiness on each guard. -/
def constraintsToMarkdown (c : Constraints) : List Char :=
  let lines :=
    [("targetLang: ".toList ++ c.targetLang)] ++
    (match c.tone with
     | some t => if t.isEmpty then [] else [("tone: ".toList ++ t)]
     | none => []) ++
    (match c.register with
     | some r => if r.isEmpty then [] else [("register: ".toList ++ r)]
     | none => []) ++
    (match c.readingLevel with
     | some r => if r.isEmpty then [] else [("readingLevel: ".toList ++ r)]
     | none => []) ++
    (if c.format.keepLineBreaks.getD false then ["keepLineBreaks: true".toList] else []) ++
    (match c.format.maxChars with
     | some n => if n ≠ 0 then [(("maxChars: " ++ toString n).toList)] else []
     | none => []) ++
    (if c.glossary.isEmpty then []
     else ["glossary:".toList] ++ c.glossary.map (fun e =>
       "- ".toList ++ e.ja ++ " => ".toList ++ e.en ++
         (if e.strict.getD false then " (strict)".toList else []))) ++
    (if c.bannedPatterns.isEmpty then []
     else ["bannedPatterns:".toList] ++ c.bannedPatterns.map (fun p => "- ".toList ++ p))
  List.intercalate ['\n'] lines

/-- Hexadecimal digit (lowercase), for JSON escapes. -/
def hexDigit (n : Nat) : Char :=
  if n < 10 then Char.ofNat (48 + n) else Char.ofNat (87 + n)

/-- JSON.stringify escaping of one character. -/
def jsonEscapeChar (c : Char) : List Char :=
  if c = '"' then ['\\', '"']
  else if c = '\\' then ['\\', '\\']
  else if c = '\n' then ['\\', 'n']
  else if c = '\t' then ['\\', 't']
  else if c = '\r' then ['\\', 'r']
  else if c.val = 8 then ['\\', 'b']
  else if c.val = 12 then ['\\', 'f']
  else if c.val < 32 then
    '\\' :: 'u' :: [hexDigit ((c.toNat / 4096) % 16), hexDigit ((c.toNat / 256) % 16),
      hexDigit ((c.toNat / 16) % 16), hexDigit (c.toNat % 16)]
  else [c]

/-- JSON.stringify of a string value. -/
def jsonString (s : List Char) : List Char :=
  '"' :: (s.map jsonEscapeChar).flatten ++ ['"']

/-- One pretty-printed line `indent ++ "key": value`. -/
def jsonField (indent : List Char) (key : String) (value : List Char) : List Char :=
  indent ++ jsonString key.toList ++ ": ".toList ++ value

/-- `JSON.stringify(state, null, 2)`: two-space pretty form of a
`TranslationState`, fields in declaration order, undefined fields
omitted (as JSON.stringify does). -/
def jsonStringifyState (st : TranslationState) : List Char :=
  let ind := "  ".toList
  let ind2 := "    ".toList
  let ind3 := "      ".toList
  let entity := fun (e : List Char × Option (List Char)) =>
    ind2 ++ [lbrace] ++ ['\n'] ++
    jsonField ind3 "name" (jsonString e.1) ++
    (match e.2 with
     | some d => ",\n".toList ++ jsonField ind3 "description" (jsonString d)
     | none => []) ++
    ['\n'] ++ ind2 ++ [rbrace]
  let entities :=
    if st.entities.isEmpty then "[]".toList
    else "[\n".toList ++
      List.intercalate (",\n".toList) (st.entities.map entity) ++
      ['\n'] ++ ind ++ "]".toList
  let fields :=
    [jsonField ind "utterance" (jsonString st.utterance),
     jsonField ind "speaker" (jsonString st.speaker)] ++
    (match st.addressee with
     | some a => [jsonField ind "addressee" (jsonString a)]
     | none => []) ++
    [jsonField ind "entities" entities,
     jsonField ind "coreMeaning" (jsonString st.coreMeaning)] ++
    (match st.implicature with
     | some i => [jsonField ind "implicature" (jsonString i)]
     | none => [])
  [lbrace] ++ ['\n'] ++ List.intercalate (",\n".toList) fields ++ ['\n'] ++ [rbrace]

/-- `stateToMarkdown` from src/pipeline/translator.ts. -/
def stateToMarkdown : Option TranslationState → List Char
  | none => "not provided".toList
  | some st => jsonStringifyState st

/-- The variable map the translator passes to `renderTemplate`. -/
def translatorVars (sample : Sample) (constraints : Constraints)
    (state : Option TranslationState) : String → Option (List Char) :=
  fun name =>
    if name = "text" then some sample.text
    else if name = "context" then some (sample.context.getD ("(none)".toList))
    else if name = "state" then some (stateToMarkdown state)
    else if name = "constraints" then some (constraintsToMarkdown constraints)
    else none

/-- `DEFAULT_TRANSLATOR_TEMPLATE` from src/pipeline/translator.ts. -/
def DEFAULT_TRANSLATOR_TEMPLATE : List Char :=
  ("You translate Japanese to natural English that follows every constraint.\nReturn only the translation text.\n# Source (Japanese)\n\x7b\x7btext\x7d\x7d\n# Context\n\x7b\x7bcontext\x7d\x7d\n# State\n\x7b\x7bstate\x7d\x7d\n# Constraints\n\x7b\x7bconstraints\x7d\x7d\n").toList

/-- `Translator.translate` over an arbitrary provider `generate`
function: render the template with the sample/constraints/state
variables, send system + user messages, right-trim the output. -/
def translatorTranslate (generate : List LLMMessage → List Char)
    (template : List Char) (systemMessage : List Char) (sample : Sample)
    (constraints : Constraints) (state : Option TranslationState) : List Char :=
  let user := renderTemplate (translatorVars sample constraints state) template
  jsTrim (generate [{ role := .system, content := systemMessage },
                    { role := .user, content := user }])

/-! ### Judge (src/pipeline/judge.ts)

The judge imports `clamp01` and `median` from src/utils/stats.ts, a
file whose source is not part of the corpus; those two helpers are
modelled from the spec below.  Everything else follows judge.ts. -/

/-- Modelled from the spec: `clamp01` (src/utils/stats.ts is missing
from the corpus) — clamp a value into the interval from 0 to 1. -/
def clamp01 (x : ℚ) : ℚ := max 0 (min 1 x)

/-- Insert into a sorted list (ascending). -/
def insertQ (x : ℚ) : List ℚ → List ℚ
  | [] => [x]
  | y :: ys => if x ≤ y then x :: y :: ys else y :: insertQ x ys

/-- Insertion sort, ascending. -/
def sortQ : List ℚ → List ℚ
  | [] => []
  | x :: xs => insertQ x (sortQ xs)

/-- Modelled from the spec: `median` (src/utils/stats.ts is missing
from the corpus) — the middle element of the sorted list, or the mean
of the two middle elements for even length. -/
def medianQ (l : List ℚ) : ℚ :=
  let sorted := sortQ l
  if l.length % 2 = 1 then sorted.getD (l.length / 2) 0
  else (sorted.getD (l.length / 2 - 1) 0 + sorted.getD (l.length / 2) 0) / 2

/-- JavaScript regex character class `[a-z0-9']` used by the judge's
token split (applied to lower-cased text). -/
def isLexChar (c : Char) : Bool :=
  ('a' ≤ c && c ≤ 'z') || ('0' ≤ c && c ≤ '9') || c = '\''

/-- Scanner for maximal `p`-runs; `current` holds the reversed run
being accumulated. -/
def runsOfAux (p : Char → Bool) (current : List Char) : List Char → List (List Char)
  | [] => if current.isEmpty then [] else [current.reverse]
  | c :: rest =>
    if p c then runsOfAux p (c :: current) rest
    else (if current.isEmpty then [] else [current.reverse]) ++ runsOfAux p [] rest

/-- Maximal runs of characters satisfying `p`: the JavaScript
`split(regex).filter(Boolean)` idiom. -/
def runsOf (p : Char → Bool) (cs : List Char) : List (List Char) :=
  runsOfAux p [] cs

/-- `heuristicScore` from src/pipeline/judge.ts: token-overlap adequacy,
length-based fluency, constant structural scores; every reported field
passes through `clamp01`. -/
def heuristicScore (sample : Sample) (translation : List Char) : ScoreBreakdown :=
  let referenceTokens := match sample.reference with
    | some r => runsOf isLexChar (r.map asciiLower)
    | none => []
  let translationTokens := runsOf isLexChar (translation.map asciiLower)
  let intersectionSize :=
    ((referenceTokens.filter (fun t => translationTokens.contains t)).dedup).length
  let adequacy : ℚ :=
    if referenceTokens.length ≠ 0 then
      (intersectionSize : ℚ) / (referenceTokens.length : ℚ)
    else min 1 ((translationTokens.length : ℚ) / ((max referenceTokens.length 5 : ℕ) : ℚ))
  let fluency : ℚ :=
    if translation.any (fun c => ('a' ≤ c && c ≤ 'z') || ('A' ≤ c && c ≤ 'Z')) then
      7/10 + min (3/10) ((translation.length : ℚ) / 200)
    else 3/10
  let constraintCompliance : ℚ :=
    1/2 + min (1/2) (if translation.length ≠ 0 then (1/5 : ℚ) else 0)
  let styleFit : ℚ := 3/5
  let overall := clamp01 (adequacy * (2/5) + fluency * (1/5) +
    constraintCompliance * (1/4) + styleFit * (3/20))
  { adequacy := clamp01 adequacy,
    fluency := clamp01 fluency,
    constraintCompliance := clamp01 constraintCompliance,
    styleFit := clamp01 styleFit,
    overall := overall }

/-- A parsed judge response: each rubric field may be absent
(`parsed.adequacy ?? 0` in the code). -/
structure JudgeParsed where
  adequacy : Option ℚ
  fluency : Option ℚ
  constraintCompliance : Option ℚ
  styleFit : Option ℚ
  overall : Option ℚ
deriving DecidableEq, Repr

/-- The per-iteration score pushed by `Judge.scoreWithLLM` when the
response parses: each field defaulted to 0 then clamped. -/
def judgeClampParsed (p : JudgeParsed) : ScoreBreakdown :=
  { adequacy := clamp01 (p.adequacy.getD 0),
    fluency := clamp01 (p.fluency.getD 0),
    constraintCompliance := clamp01 (p.constraintCompliance.getD 0),
    styleFit := clamp01 (p.styleFit.getD 0),
    overall := clamp01 (p.overall.getD 0) }

/-- `Judge.scoreWithLLM` with an LLM configured: run
`max(1, judgeRuns)` scoring iterations; iteration `i`'s parsed JSON is
`outputs i` (`none` models a JSON.parse failure, which contributes the
heuristic score); reduce each dimension by median. -/
def judgeScore (runs : Nat) (outputs : Nat → Option JudgeParsed)
    (sample : Sample) (translation : List Char) : ScoreBreakdown :=
  let iterations := max 1 runs
  let scores := (List.range iterations).map (fun i =>
    match outputs i with
    | some p => judgeClampParsed p
    | none => heuristicScore sample translation)
  { adequacy := medianQ (scores.map (fun s => s.adequacy)),
    fluency := medianQ (scores.map (fun s => s.fluency)),
    constraintCompliance := medianQ (scores.map (fun s => s.constraintCompliance)),
    styleFit := medianQ (scores.map (fun s => s.styleFit)),
    overall := medianQ (scores.map (fun s => s.overall)) }

/-! ### Disk cache (src/llm/cache.ts) -/

/-- A thrown JavaScript error as the cache's catch clause sees it: a
message and an optional `code` property (fs errors carry `"ENOENT"`
for a missing file; `JSON.parse`'s SyntaxError has no code). -/
structure JsError where
  code : Option String
  msg : String
deriving DecidableEq, Repr

/-- `DiskCache.get`: read the entry file and parse it, returning the
entry's value; the catch clause converts only an ENOENT failure into a
miss (`undefined`) and rethrows every other error.  `read` models
`fs.promises.readFile`, `parseValue` models `JSON.parse(data).value`. -/
def diskCacheGet {V : Type} (read : Except JsError String)
    (parseValue : String → Except JsError V) : Except JsError (Option V) :=
  match (do
    let data ← read
    parseValue data : Except JsError V) with
  | .ok v => .ok (some v)
  | .error e => if e.code = some "ENOENT" then .ok none else .error e

/-- The bytes `DiskCache.set` writes for one entry:
`fast-json-stable-stringify` of the record with fields `key` (the
stable hash of the canonicalized request), `value` (the provider
response) and `createdAt` (`new Date().toISOString()` at write time).
The stable stringify sorts keys alphabetically, so `createdAt` comes
first; hash and timestamp contain no characters needing escapes and
are serialized verbatim; `valueJson` is the serialized response. -/
def serializedCacheEntry (key valueJson createdAt : List Char) : List Char :=
  ("\x7b\"createdAt\":\"").toList ++ createdAt ++
  ("\",\"key\":\"").toList ++ key ++
  ("\",\"value\":").toList ++ valueJson ++ ("\x7d").toList

/-! ### Concrete fixtures used by witnesses and scenario theorems -/

/-- The hard-check settings produced by `hardCheckSettings(config)` in
the runner when `config.defaults.hardChecks` sets nothing: every rule
defaults to on, no global length cap. -/
def defaultHardCheckSettings : HardCheckSettings :=
  { noDisallowedJapanese := true,
    glossaryStrictMatches := true,
    maxLength := none,
    noMetaTalk := true,
    formatPreserved := true }

/-- `ConstraintNormalizer.normalize` output for a sample with no
constraints under empty defaults: the zod schema fills targetLang "en",
an empty format record and empty lists. -/
def defaultNormalizedConstraints : Constraints :=
  { targetLang := "en".toList,
    tone := none,
    register := none,
    readingLevel := none,
    format := { keepLineBreaks := none, maxChars := none, noExtraPrefixSuffix := none },
    glossary := [],
    bannedPatterns := [],
    allowJapaneseTokens := [] }

/-- The S1 scenario sample from the spec. -/
def sampleS1 : Sample :=
  { id := "s1", text := "こんにちは、世界。".toList, context := none, reference := none }

/-- A concrete deterministic stage set (witness input). -/
def trivialStages : Stages :=
  { buildState := fun _ =>
      { utterance := [], speaker := "unknown".toList, addressee := none,
        entities := [], coreMeaning := [], implicature := none },
    translate := fun _ _ _ => [],
    verifyLLM := fun _ _ _ _ => [],
    repair := fun _ cur _ _ _ => cur,
    judge := fun _ _ _ _ =>
      { adequacy := 0, fluency := 0, constraintCompliance := 0, styleFit := 0, overall := 0 } }

/-! ### Helper lemmas -/

theorem statusOf_iff (v : VerificationResult) :
    statusOf v = .needs_review ↔
      ((∃ issue ∈ v.issues, issue.severity = .critical) ∨
       (∃ hc ∈ v.hardChecks, hc.passed = false)) := by
  rw [statusOf]
  split
  case isTrue h =>
    simp only [List.any_eq_true, decide_eq_true_eq, Bool.not_eq_true', Bool.or_eq_true] at h
    simpa using h
  case isFalse h =>
    simp only [List.any_eq_true, decide_eq_true_eq, Bool.not_eq_true', Bool.or_eq_true] at h
    push_neg at h
    obtain ⟨h1, h2⟩ := h
    constructor
    · intro hcontra
      exact absurd hcontra (by simp)
    · rintro (⟨i, hmem, hsev⟩ | ⟨hc, hmem, hp⟩)
      · exact absurd hsev (h1 i hmem)
      · exact absurd hp (h2 hc hmem)

theorem repairLoopCountLe (verify : List Char → VerificationResult)
    (repairFn : List Char → List Issue → List Char) :
    ∀ fuel current verification,
      (repairLoop verify repairFn fuel current verification).2.2 ≤ fuel := by
  intro fuel
  induction fuel with
  | zero => intro c v; simp [repairLoop]
  | succ n ih =>
    intro c v
    rw [repairLoop]
    split
    · have := ih (repairFn c v.issues) (verify (repairFn c v.issues))
      simpa using Nat.succ_le_succ this
    · exact Nat.zero_le _

/-! ### Claim C1 -/

/-- C1: for every (sample, condition) pair the orchestrator completes,
the assembled RunRecord has status needs_review if and only if, after
the verify-repair loop, some Issue in the final verification has
severity critical or some hard check has passed = false; otherwise the
status is ok. -/
theorem processSample_needsReview_iff (stages : Stages)
    (settings : HardCheckSettings) (maxRepairs : Nat) (runId : String)
    (sample : Sample) (condition : Condition) (constraints : Constraints) :
    (processSample stages settings maxRepairs runId sample condition constraints).status
        = .needs_review ↔
      ((∃ issue ∈ (processSample stages settings maxRepairs runId sample
          condition constraints).verifier.issues, issue.severity = .critical) ∨
       (∃ hc ∈ (processSample stages settings maxRepairs runId sample
          condition constraints).verifier.hardChecks, hc.passed = false)) := by
  have hstat : (processSample stages settings maxRepairs runId sample condition
      constraints).status =
      statusOf (processSample stages settings maxRepairs runId sample condition
        constraints).verifier := rfl
  rw [hstat]
  exact statusOf_iff _

/-! ### Claim C3 -/

/-- C3: the RunRecord's state field is absent exactly under conditions
A0 and A2 (present under A1 and A3, where the state builder is
invoked); under A0 and A1 the repair loop never runs (no repair
timings), and in every case at most maxRepairs repair iterations are
executed. -/
theorem processSample_condition_gates (stages : Stages)
    (settings : HardCheckSettings) (maxRepairs : Nat) (runId : String)
    (sample : Sample) (condition : Condition) (constraints : Constraints) :
    ((processSample stages settings maxRepairs runId sample condition
        constraints).state = none ↔ (condition = .A0 ∨ condition = .A2)) ∧
    ((condition = .A0 ∨ condition = .A1) →
      (processSample stages settings maxRepairs runId sample condition
        constraints).repairCount = 0) ∧
    (processSample stages settings maxRepairs runId sample condition
        constraints).repairCount ≤ maxRepairs := by
  refine ⟨?_, ?_, ?_⟩
  · cases condition <;> simp [processSample, needsState]
  · intro hcond
    rcases hcond with h | h <;> subst h <;> rfl
  · cases condition
    case A0 => exact Nat.zero_le _
    case A1 => exact Nat.zero_le _
    case A2 => exact repairLoopCountLe _ _ maxRepairs _ _
    case A3 => exact repairLoopCountLe _ _ maxRepairs _ _

/-- Witness for C3 at a concrete input: condition A0 with concrete
stages yields zero repair iterations, an absent state, and respects
the bound. -/
theorem processSample_condition_gates_witness :
    (processSample trivialStages defaultHardCheckSettings 1 "run"
        sampleS1 .A0 defaultNormalizedConstraints).repairCount = 0 ∧
    (processSample trivialStages defaultHardCheckSettings 1 "run"
        sampleS1 .A0 defaultNormalizedConstraints).state = none ∧
    (processSample trivialStages defaultHardCheckSettings 1 "run"
        sampleS1 .A0 defaultNormalizedConstraints).repairCount ≤ 1 := by
  refine ⟨?_, ?_, ?_⟩
  · exact (processSample_condition_gates trivialStages defaultHardCheckSettings 1
      "run" sampleS1 .A0 defaultNormalizedConstraints).2.1 (Or.inl rfl)
  · exact ((processSample_condition_gates trivialStages defaultHardCheckSettings 1
      "run" sampleS1 .A0 defaultNormalizedConstraints).1).2 (Or.inl rfl)
  · exact (processSample_condition_gates trivialStages defaultHardCheckSettings 1
      "run" sampleS1 .A0 defaultNormalizedConstraints).2.2

/-! ### Claim C10 -/

theorem mem_verify_hardIssues_not_critical (settings : HardCheckSettings)
    (sampleId : String) (req : HardCheckRequest) (issue : Issue)
    (hi : issue ∈ (verifierVerify settings sampleId req []).issues) :
    issue.severity ≠ .critical := by
  simp only [verifierVerify, List.append_nil, List.mem_map] at hi
  obtain ⟨check, _, rfl⟩ := hi
  simp only [hardIssueOfCheck]
  split <;> simp

/-- C10: every Issue the verifier synthesizes from a failing hard check
has severity major for the noDisallowedJapanese rule and minor for
every other rule — never critical — and type FORMAT_VIOLATION for
formatPreserved and STYLE_VIOLATION otherwise; hence with no LLM issues
the needs_review condition can only trigger through the
failed-hard-check disjunct. -/
theorem verifier_hardIssue_mapping (settings : HardCheckSettings)
    (sampleId : String) (req : HardCheckRequest) :
    (∀ check : HardCheckResult,
      (hardIssueOfCheck sampleId check).severity =
        (if check.id = "noDisallowedJapanese" then .major else .minor) ∧
      (hardIssueOfCheck sampleId check).severity ≠ .critical ∧
      (hardIssueOfCheck sampleId check).type =
        (if check.id = "formatPreserved" then .FORMAT_VIOLATION else .STYLE_VIOLATION)) ∧
    ((verifierVerify settings sampleId req []).issues.any
        (fun issue => decide (issue.severity = .critical)) = false) ∧
    (statusOf (verifierVerify settings sampleId req []) = .needs_review ↔
      ∃ hc ∈ (verifierVerify settings sampleId req []).hardChecks, hc.passed = false) := by
  refine ⟨?_, ?_, ?_⟩
  · intro check
    refine ⟨rfl, ?_, rfl⟩
    simp only [hardIssueOfCheck]
    split <;> simp
  · rw [List.any_eq_false]
    intro issue hi
    simpa using mem_verify_hardIssues_not_critical settings sampleId req issue hi
  · rw [statusOf_iff]
    constructor
    · rintro (⟨issue, hi, hsev⟩ | h)
      · exact absurd hsev (mem_verify_hardIssues_not_critical settings sampleId req issue hi)
      · exact h
    · exact Or.inr

/-! ### Claim C4 -/

theorem findOnAppend {α : Type} (p : α → Bool) (l1 l2 : List α) :
    (l1 ++ l2).find? p = ((l1.find? p).orElse (fun _ => l2.find? p)) := by
  induction l1 with
  | nil => simp
  | cons a l ih =>
    by_cases h : p a
    · simp [List.find?, h, Option.orElse]
    · simp only [List.cons_append, List.find?, h, List.append_eq]
      exact ih

/-- The settings of the C4 counterexample: only the global length cap
(5) is active. -/
def c4Settings : HardCheckSettings :=
  { noDisallowedJapanese := false,
    glossaryStrictMatches := false,
    maxLength := some 5,
    noMetaTalk := false,
    formatPreserved := false }

/-- The request of the C4 counterexample: per-sample maxChars 10 and an
8-character translation. -/
def c4Request : HardCheckRequest :=
  { translation := "abcdefgh".toList,
    sourceText := [],
    constraints :=
      { defaultNormalizedConstraints with
        format := { keepLineBreaks := none, maxChars := some 10,
                    noExtraPrefixSuffix := none } } }

/-- C4 counterexample: with maxChars = 10 and global maxLength = 5 both
set, the engine's maxLength result for an 8-character translation
passes, although 8 exceeds min 10 5 — the engine does not enforce the
minimum of the two bounds. -/
theorem hardCheck_maxLength_not_min :
    ((hardCheckRun c4Settings c4Request).find?
        (fun hc => hc.id == "maxLength")).map (fun hc => hc.passed) = some true ∧
    ¬((c4Request.translation.length ≤ min 10 5)) := by
  constructor
  · rfl
  · decide

/-- C4 amended: the maxLength hard check uses
`format.maxChars ?? settings.maxLength` — the per-sample bound alone
when it is set, the global bound only otherwise.  A result is emitted
exactly when the chosen bound is set and nonzero, and it passes iff the
translation's length is at most that single bound. -/
theorem hardCheck_maxLength_spec (settings : HardCheckSettings)
    (req : HardCheckRequest) :
    ((hardCheckRun settings req).find?
        (fun hc => hc.id == "maxLength")).map (fun hc => hc.passed) =
      (match req.constraints.format.maxChars <|> settings.maxLength with
       | some limit =>
         if limit ≠ 0 then some (decide (req.translation.length ≤ limit)) else none
       | none => none) := by
  rw [hardCheckRun]
  rw [findOnAppend, findOnAppend, findOnAppend, findOnAppend]
  cases hnd : settings.noDisallowedJapanese <;>
  cases hgs : settings.glossaryStrictMatches <;>
  cases hmt : settings.noMetaTalk <;>
  cases hfp : settings.formatPreserved && req.constraints.format.keepLineBreaks.getD false <;>
  rcases hlim : req.constraints.format.maxChars <|> settings.maxLength with _ | limit <;>
  simp only [hlim] <;>
  first
    | (by_cases hz : limit = 0 <;> simp [List.find?, Option.orElse, hz])
    | (simp [List.find?, Option.orElse])

/-! ### Claim C5 -/

/-- C5 counterexample: an entry file whose content fails to parse (the
SyntaxError thrown by JSON.parse carries no `code`) makes
`DiskCache.get` propagate the error instead of returning a miss — the
catch clause converts only ENOENT into a miss. -/
theorem diskCacheGet_corrupt_propagates :
    (diskCacheGet (V := String) (.ok "not json")
        (fun _ => .error { code := none, msg := "SyntaxError: Unexpected token" }) =
      .error { code := none, msg := "SyntaxError: Unexpected token" }) ∧
    (diskCacheGet (V := String) (.ok "not json")
        (fun _ => .error { code := none, msg := "SyntaxError: Unexpected token" }) ≠
      .ok none) := by
  constructor
  · rfl
  · intro h
    cases h

/-- C5 amended: `DiskCache.get` returns a miss exactly for a read that
fails with code ENOENT (a missing entry file); a parse failure of an
existing file's content — or any other non-ENOENT error — is propagated
to the caller, and a parsed entry returns its value. -/
theorem diskCacheGet_spec {V : Type} (read : Except JsError String)
    (parseValue : String → Except JsError V) :
    (∀ e, read = .error e → e.code = some "ENOENT" →
      diskCacheGet read parseValue = .ok none) ∧
    (∀ data e, read = .ok data → parseValue data = .error e →
      e.code ≠ some "ENOENT" → diskCacheGet read parseValue = .error e) ∧
    (∀ data v, read = .ok data → parseValue data = .ok v →
      diskCacheGet read parseValue = .ok (some v)) := by
  refine ⟨?_, ?_, ?_⟩
  · intro e hread hcode
    simp [diskCacheGet, hread, hcode, bind, Except.bind]
  · intro data e hread hparse hcode
    simp [diskCacheGet, hread, hparse, hcode, bind, Except.bind]
  · intro data v hread hparse
    simp [diskCacheGet, hread, hparse, bind, Except.bind]

/-- Witness for C5 amended: a missing file (ENOENT) is a miss. -/
theorem diskCacheGet_spec_witness :
    diskCacheGet (V := String)
      (.error { code := some "ENOENT", msg := "no such file" })
      (fun _ => .ok "ignored") = .ok none :=
  (diskCacheGet_spec (V := String)
      (.error { code := some "ENOENT", msg := "no such file" })
      (fun _ => .ok "ignored")).1
    { code := some "ENOENT", msg := "no such file" } rfl rfl

/-! ### Claim C8 -/

/-- C8 counterexample: the cache entry bytes embed the wall-clock
`createdAt` timestamp, so two runs writing the same canonicalized
request and response at different times produce different file bytes. -/
theorem serializedCacheEntry_time_dependent :
    serializedCacheEntry "abc".toList "\x7b\x7d".toList
        "2024-01-01T00:00:00.000Z".toList ≠
      serializedCacheEntry "abc".toList "\x7b\x7d".toList
        "2024-01-01T00:00:01.000Z".toList := by
  decide

/-- C8 amended: the written bytes are determined by exactly the request
hash, the serialized response and the write timestamp; with the key and
value fixed, the bytes agree if and only if the `createdAt` timestamps
agree — so two runs produce bit-identical entry files only up to the
`createdAt` field. -/
theorem serializedCacheEntry_determined (key valueJson t1 t2 : List Char) :
    serializedCacheEntry key valueJson t1 = serializedCacheEntry key valueJson t2 ↔
      t1 = t2 := by
  constructor
  · intro h
    simp only [serializedCacheEntry] at h
    have h1 := List.append_cancel_right h
    have h2 := List.append_cancel_right h1
    have h3 := List.append_cancel_right h2
    have h4 := List.append_cancel_right h3
    have h5 := List.append_cancel_right h4
    exact List.append_cancel_left h5
  · intro h
    rw [h]

/-! ### Claim C9 -/

theorem wordNotSpace (c : Char) (h : jsIsWordChar c = true) : jsIsSpace c = false := by
  simp only [jsIsWordChar, jsIsSpace, Bool.or_eq_true, Bool.and_eq_true, decide_eq_true_eq,
    Bool.or_eq_false_iff, decide_eq_false_iff_not, Bool.and_eq_false_iff,
    not_and, not_le] at *
  omega

theorem rbraceNotWord : jsIsWordChar rbrace = false := by decide

theorem rbraceNotSpace : jsIsSpace rbrace = false := by decide

theorem takeWhileAppendAll (p : Char → Bool) (l : List Char) (x : Char)
    (r : List Char) (hl : ∀ c ∈ l, p c = true) (hx : p x = false) :
    (l ++ x :: r).takeWhile p = l ∧ (l ++ x :: r).dropWhile p = x :: r := by
  induction l with
  | nil => simp [List.takeWhile, List.dropWhile, hx]
  | cons c l ih =>
    have hc : p c = true := hl c (by simp)
    have ihh := ih (fun d hd => hl d (by simp [hd]))
    simp [List.takeWhile, List.dropWhile, hc, ihh.1, ihh.2]

theorem matchPlaceholderCanonical (name s : List Char) (hne : name ≠ [])
    (hw : ∀ c ∈ name, jsIsWordChar c = true) :
    matchPlaceholder (lbrace :: lbrace :: (name ++ rbrace :: rbrace :: s)) =
      some (String.mk name, s) := by
  match name, hne with
  | n0 :: name1, _ =>
    have hn0w : jsIsWordChar n0 = true := hw n0 (by simp)
    have hn0s : jsIsSpace n0 = false := wordNotSpace n0 hn0w
    have htd := takeWhileAppendAll jsIsWordChar (n0 :: name1) rbrace (rbrace :: s)
      hw rbraceNotWord
    have h1 : List.dropWhile jsIsSpace (n0 :: (name1 ++ rbrace :: rbrace :: s)) =
        n0 :: (name1 ++ rbrace :: rbrace :: s) := by
      simp [List.dropWhile, hn0s]
    have h2 : List.takeWhile jsIsWordChar (n0 :: (name1 ++ rbrace :: rbrace :: s)) =
        n0 :: name1 := by simpa using htd.1
    have h3 : List.dropWhile jsIsWordChar (n0 :: (name1 ++ rbrace :: rbrace :: s)) =
        rbrace :: rbrace :: s := by simpa using htd.2
    have h4 : List.dropWhile jsIsSpace (rbrace :: rbrace :: s) =
        rbrace :: rbrace :: s := by
      simp [List.dropWhile, rbraceNotSpace]
    simp [matchPlaceholder, h1, h2, h3, h4]

theorem renderAuxNil (vars : String → Option (List Char)) (fuel : Nat) :
    renderTemplateAux vars fuel [] = [] := by
  cases fuel <;> rfl

theorem renderAuxLitStep (vars : String → Option (List Char)) (fuel : Nat)
    (c : Char) (rest : List Char) (hc : c ≠ lbrace) :
    renderTemplateAux vars (fuel + 1) (c :: rest) =
      c :: renderTemplateAux vars fuel rest := by
  have hm : matchPlaceholder (c :: rest) = none := by
    cases rest with
    | nil => rfl
    | cons c2 r => simp [matchPlaceholder, hc]
  simp [renderTemplateAux, hm]

theorem renderAuxLit (vars : String → Option (List Char)) (p : List Char)
    (hp : ∀ c ∈ p, c ≠ lbrace) :
    ∀ fuel rest, renderTemplateAux vars (p.length + fuel) (p ++ rest) =
      p ++ renderTemplateAux vars fuel rest := by
  induction p with
  | nil => intro fuel rest; simp
  | cons c p ih =>
    intro fuel rest
    have hc : c ≠ lbrace := hp c (by simp)
    have hlen : (c :: p).length + fuel = (p.length + fuel) + 1 := by
      simp [List.length_cons]; omega
    rw [hlen, List.cons_append,
      renderAuxLitStep vars (p.length + fuel) c (p ++ rest) hc,
      ih (fun d hd => hp d (by simp [hd])) fuel rest]
    rfl

theorem renderAuxPlaceholder (vars : String → Option (List Char))
    (name s : List Char) (fuel : Nat) (hne : name ≠ [])
    (hw : ∀ c ∈ name, jsIsWordChar c = true) :
    renderTemplateAux vars (fuel + 1)
        (lbrace :: lbrace :: (name ++ rbrace :: rbrace :: s)) =
      (vars (String.mk name)).getD [] ++ renderTemplateAux vars fuel s := by
  simp [renderTemplateAux, matchPlaceholderCanonical name s hne hw]

theorem renderAuxLitAll (vars : String → Option (List Char)) (s : List Char)
    (hs : ∀ c ∈ s, c ≠ lbrace) (fuel : Nat) :
    renderTemplateAux vars (s.length + fuel) s = s := by
  have h := renderAuxLit vars s hs fuel []
  simpa [renderAuxNil] using h

theorem renderTemplateSinglePlaceholder (vars : String → Option (List Char))
    (p name s : List Char) (hp : ∀ c ∈ p, c ≠ lbrace)
    (hs : ∀ c ∈ s, c ≠ lbrace) (hne : name ≠ [])
    (hw : ∀ c ∈ name, jsIsWordChar c = true) :
    renderTemplate vars (p ++ lbrace :: lbrace :: (name ++ rbrace :: rbrace :: s)) =
      p ++ ((vars (String.mk name)).getD [] ++ s) := by
  rw [renderTemplate]
  have hlen : (p ++ lbrace :: lbrace :: (name ++ rbrace :: rbrace :: s)).length =
      p.length + ((name.length + (s.length + 3)) + 1) := by
    simp [List.length_append, List.length_cons]
    omega
  rw [hlen, renderAuxLit vars p hp ((name.length + (s.length + 3)) + 1) _,
    renderAuxPlaceholder vars name s (name.length + (s.length + 3)) hne hw]
  have hs3 : name.length + (s.length + 3) = s.length + (name.length + 3) := by omega
  rw [hs3, renderAuxLitAll vars s hs (name.length + 3)]

/-- First counterexample substitution for C9. -/
def c9v1 : String → Option (List Char) :=
  fun k => if k = "a" then some "x".toList else if k = "b" then some [] else none

/-- Second counterexample substitution for C9. -/
def c9v2 : String → Option (List Char) :=
  fun k => if k = "a" then some [] else if k = "b" then some "x".toList else none

/-- The two-adjacent-placeholder template of the C9 counterexample. -/
def c9Template : List Char := "\x7b\x7ba\x7d\x7d\x7b\x7bb\x7d\x7d".toList

/-- C9 counterexample: the template with two adjacent placeholders
renders identically under two substitutions that disagree on both
placeholders — template rendering is not injective in the substituted
values. -/
theorem renderTemplate_not_injective :
    renderTemplate c9v1 c9Template = renderTemplate c9v2 c9Template ∧
    c9v1 "a" ≠ c9v2 "a" ∧ c9v1 "b" ≠ c9v2 "b" := by
  refine ⟨by decide, by decide, by decide⟩

/-- C9 amended: rendering is injective for templates with a single
placeholder occurrence — for a template made of brace-free literal text
around one placeholder with a nonempty word-character name, the render
equals prefix ++ value ++ suffix, so equal outputs force equal
substituted values.  (With two or more placeholders adjacency makes
rendering non-injective.) -/
theorem renderTemplate_injective_single (p name s : List Char)
    (vars1 vars2 : String → Option (List Char))
    (hp : ∀ c ∈ p, c ≠ lbrace) (hs : ∀ c ∈ s, c ≠ lbrace)
    (hne : name ≠ []) (hw : ∀ c ∈ name, jsIsWordChar c = true)
    (h : renderTemplate vars1 (p ++ lbrace :: lbrace :: (name ++ rbrace :: rbrace :: s)) =
         renderTemplate vars2 (p ++ lbrace :: lbrace :: (name ++ rbrace :: rbrace :: s))) :
    (vars1 (String.mk name)).getD [] = (vars2 (String.mk name)).getD [] := by
  rw [renderTemplateSinglePlaceholder vars1 p name s hp hs hne hw,
    renderTemplateSinglePlaceholder vars2 p name s hp hs hne hw] at h
  have h1 := List.append_cancel_left h
  exact List.append_cancel_right h1

/-- Witness for C9 amended at a concrete template and substitutions. -/
theorem renderTemplate_injective_single_witness :
    (c9v1 (String.mk "a".toList)).getD [] = (c9v1 (String.mk "a".toList)).getD [] :=
  renderTemplate_injective_single "A: ".toList "a".toList " end".toList c9v1 c9v1
    (by decide) (by decide) (by decide) (by decide) rfl

/-! ### Claim C2 -/

/-- A stage set whose translator throws (witness input for C2): the
awaited LLM call rejects with message "boom". -/
def failingStagesE : StagesE :=
  { buildState := fun _ => .ok
      { utterance := [], speaker := "unknown".toList, addressee := none,
        entities := [], coreMeaning := [], implicature := none },
    translate := fun _ _ _ => .error "boom",
    verifyLLM := fun _ _ _ _ => .ok [],
    repair := fun _ cur _ _ _ => .ok cur,
    judge := fun _ _ _ _ => .ok
      { adequacy := 0, fluency := 0, constraintCompliance := 0, styleFit := 0, overall := 0 } }

/-- C2 counterexample: when a stage throws while processing the single
(sample, condition) pair, the runner writes no record at all for the
pair — there is no record with a synthesized OTHER/critical issue and
status error (the engine's status type does not even admit an error
value); the rejection propagates out of run. -/
theorem runPairs_exception_no_record :
    (runPairs failingStagesE defaultHardCheckSettings 1 "run1" [sampleS1] [.A0]
        (fun _ => defaultNormalizedConstraints)).1 = [] ∧
    (runPairs failingStagesE defaultHardCheckSettings 1 "run1" [sampleS1] [.A0]
        (fun _ => defaultNormalizedConstraints)).2 = some "boom" := by
  constructor
  · rfl
  · rfl

/-- C2 amended: if an unhandled exception is thrown while processing a
(sample, condition) pair, no record is written for that pair and the
exception propagates out of the runner's run; `processSample` has no
try/catch and the RunRecord status type admits only ok and
needs_review. -/
theorem runPairs_exception_amended (stages : StagesE)
    (settings : HardCheckSettings) (maxRepairs : Nat) (runId : String)
    (sample : Sample) (condition : Condition)
    (constraintsOf : Sample → Constraints) (msg : String)
    (h : processSampleE stages settings maxRepairs runId sample condition
      (constraintsOf sample) = .error msg) :
    (runPairs stages settings maxRepairs runId [sample] [condition]
        constraintsOf).1 = [] ∧
    (runPairs stages settings maxRepairs runId [sample] [condition]
        constraintsOf).2 = some msg := by
  constructor <;> simp [runPairs, h, Except.toOption]

/-- Witness for C2 amended at the concrete failing stage set. -/
theorem runPairs_exception_amended_witness :
    (runPairs failingStagesE defaultHardCheckSettings 2 "run2" [sampleS1] [.A2]
        (fun _ => defaultNormalizedConstraints)).1 = [] ∧
    (runPairs failingStagesE defaultHardCheckSettings 2 "run2" [sampleS1] [.A2]
        (fun _ => defaultNormalizedConstraints)).2 = some "boom" :=
  runPairs_exception_amended failingStagesE defaultHardCheckSettings 2 "run2"
    sampleS1 .A2 (fun _ => defaultNormalizedConstraints) "boom" rfl

/-! ### Claim C7 -/

/-- `heuristicState` from src/pipeline/state.ts (the state builder
without an LLM). -/
def heuristicState (sample : Sample) : TranslationState :=
  { utterance := sample.text.take 120,
    speaker := "unknown".toList,
    addressee := some ("unknown".toList),
    entities := [],
    coreMeaning := sample.text,
    implicature := sample.context }

/-- The translator's default system message
(src/pipeline/translator.ts). -/
def defaultTranslatorSystem : List Char :=
  "You are a professional JA-EN literary translator.".toList

/-- The concrete pipeline stages of the mock scenario: mock translator
behind the given prompt template, state builder and judge without LLM,
no verifier LLM (a mock verifier LLM would equally contribute zero
issues, since its output never parses as JSON), and the heuristic
repairer under the scenario's constraints (no banned patterns, no
maxChars — it right-trims). -/
def mockStages (template : List Char) : Stages :=
  { buildState := heuristicState,
    translate := fun s c st =>
      translatorTranslate mockGenerate template defaultTranslatorSystem s c st,
    verifyLLM := fun _ _ _ _ => [],
    repair := fun _ cur issues _ _ => if issues.isEmpty then cur else jsTrim cur,
    judge := fun s t _ _ => heuristicScore s t }

/-- A pass-through translator prompt: a single text placeholder. -/
def idTemplate : List Char := "\x7b\x7btext\x7d\x7d".toList

/-- C7 counterexample: the mock substitution inserts no space after the
comma, so final.en for the S1 sample is "こんにちは,世界." — not the
claimed "こんにちは, 世界." — even with a pass-through translator
template; with the default translator template the output is the
transformed whole prompt and differs as well. -/
theorem mock_s1_final_mismatch :
    (processSample (mockStages idTemplate) defaultHardCheckSettings 1 "run1"
        sampleS1 .A0 defaultNormalizedConstraints).final = "こんにちは,世界.".toList ∧
    (processSample (mockStages idTemplate) defaultHardCheckSettings 1 "run1"
        sampleS1 .A0 defaultNormalizedConstraints).final ≠ "こんにちは, 世界.".toList ∧
    (processSample (mockStages DEFAULT_TRANSLATOR_TEMPLATE) defaultHardCheckSettings
        1 "run1" sampleS1 .A0 defaultNormalizedConstraints).final ≠
      "こんにちは, 世界.".toList := by
  refine ⟨by decide, by decide, by decide⟩

/-- C7 amended: the mock provider transforms the last user message by
the punctuation substitution, trim and whitespace collapse (inserting
no new whitespace); under condition A0 with the pass-through template
the S1 sample yields final.en = "こんにちは,世界.", and with the
default translator template the transformed whole prompt; in both
cases the noDisallowedJapanese hard check fails and the record's
status is needs_review. -/
theorem mock_s1_behavior :
    (∀ sys content : List Char,
      mockGenerate [{ role := .system, content := sys },
                    { role := .user, content := content }] =
        rudimentaryTranslate content) ∧
    (processSample (mockStages idTemplate) defaultHardCheckSettings 1 "run1"
        sampleS1 .A0 defaultNormalizedConstraints).final = "こんにちは,世界.".toList ∧
    (((processSample (mockStages idTemplate) defaultHardCheckSettings 1 "run1"
        sampleS1 .A0 defaultNormalizedConstraints).verifier.hardChecks.find?
          (fun hc => hc.id == "noDisallowedJapanese")).map (fun hc => hc.passed) =
      some false) ∧
    (processSample (mockStages idTemplate) defaultHardCheckSettings 1 "run1"
        sampleS1 .A0 defaultNormalizedConstraints).status = .needs_review ∧
    (((processSample (mockStages DEFAULT_TRANSLATOR_TEMPLATE) defaultHardCheckSettings
        1 "run1" sampleS1 .A0 defaultNormalizedConstraints).verifier.hardChecks.find?
          (fun hc => hc.id == "noDisallowedJapanese")).map (fun hc => hc.passed) =
      some false) ∧
    (processSample (mockStages DEFAULT_TRANSLATOR_TEMPLATE) defaultHardCheckSettings
        1 "run1" sampleS1 .A0 defaultNormalizedConstraints).status = .needs_review := by
  refine ⟨fun sys content => rfl, by decide, by decide, by decide, by decide, by decide⟩

/-! ### Claim C6 -/

/-- Membership in the unit interval. -/
def inUnit (x : ℚ) : Prop := 0 ≤ x ∧ x ≤ 1

theorem clamp01InUnit (x : ℚ) : inUnit (clamp01 x) := by
  unfold inUnit clamp01
  constructor
  · exact le_max_left 0 _
  · apply max_le
    · norm_num
    · exact min_le_left 1 x

theorem memInsertQ (z x : ℚ) (l : List ℚ) (h : z ∈ insertQ x l) :
    z = x ∨ z ∈ l := by
  induction l with
  | nil =>
    simp only [insertQ, List.mem_singleton] at h
    exact Or.inl h
  | cons y ys ih =>
    simp only [insertQ] at h
    split at h
    · simpa using h
    · rcases List.mem_cons.mp h with hz | hz
      · exact Or.inr (by simp [hz])
      · rcases ih hz with hz2 | hz2
        · exact Or.inl hz2
        · exact Or.inr (by simp [hz2])

theorem memSortQ (z : ℚ) (l : List ℚ) (h : z ∈ sortQ l) : z ∈ l := by
  induction l with
  | nil => simp [sortQ] at h
  | cons x xs ih =>
    simp only [sortQ] at h
    rcases memInsertQ z x (sortQ xs) h with hz | hz
    · simp [hz]
    · exact List.mem_cons_of_mem x (ih hz)

theorem insertQLength (x : ℚ) (l : List ℚ) :
    (insertQ x l).length = l.length + 1 := by
  induction l with
  | nil => rfl
  | cons y ys ih =>
    simp only [insertQ]
    split
    · simp
    · simp [ih]

theorem sortQLength (l : List ℚ) : (sortQ l).length = l.length := by
  induction l with
  | nil => rfl
  | cons x xs ih => simp [sortQ, insertQLength, ih]

theorem getDMemQ : ∀ (l : List ℚ) (i : Nat), i < l.length → l.getD i 0 ∈ l := by
  intro l
  induction l with
  | nil => intro i h; simp at h
  | cons a l ih =>
    intro i h
    cases i with
    | zero => simp
    | succ n =>
      simp only [List.getD_cons_succ]
      exact List.mem_cons_of_mem a (ih n (by simpa using h))

theorem medianQInUnit (l : List ℚ) (hne : l ≠ [])
    (h : ∀ x ∈ l, inUnit x) : inUnit (medianQ l) := by
  have hlen : 0 < l.length := List.length_pos.mpr hne
  have hsorted : ∀ i, i < l.length → inUnit ((sortQ l).getD i 0) := by
    intro i hi
    exact h _ (memSortQ _ l (getDMemQ (sortQ l) i (by rw [sortQLength]; exact hi)))
  rw [medianQ]
  split
  · exact hsorted (l.length / 2) (Nat.div_lt_self hlen (by norm_num))
  · have h1 := hsorted (l.length / 2 - 1) (by omega)
    have h2 := hsorted (l.length / 2) (Nat.div_lt_self hlen (by norm_num))
    obtain ⟨h1a, h1b⟩ := h1
    obtain ⟨h2a, h2b⟩ := h2
    constructor
    · linarith
    · linarith

/-- C6: with an LLM configured the judge performs max(1, judgeRuns)
scoring iterations; each reported dimension (including overall) equals
the median of that dimension over the iterations, where a parsed
iteration contributes its fields clamped to the unit interval and a
parse failure contributes the heuristic score; consequently every
reported score lies in the unit interval. -/
theorem judgeScore_median_inUnit (runs : Nat) (outputs : Nat → Option JudgeParsed)
    (sample : Sample) (translation : List Char) :
    ((judgeScore runs outputs sample translation).adequacy =
        medianQ (((List.range (max 1 runs)).map (fun i =>
          match outputs i with
          | some p => judgeClampParsed p
          | none => heuristicScore sample translation)).map (fun s => s.adequacy)) ∧
     (judgeScore runs outputs sample translation).fluency =
        medianQ (((List.range (max 1 runs)).map (fun i =>
          match outputs i with
          | some p => judgeClampParsed p
          | none => heuristicScore sample translation)).map (fun s => s.fluency)) ∧
     (judgeScore runs outputs sample translation).constraintCompliance =
        medianQ (((List.range (max 1 runs)).map (fun i =>
          match outputs i with
          | some p => judgeClampParsed p
          | none => heuristicScore sample translation)).map
            (fun s => s.constraintCompliance)) ∧
     (judgeScore runs outputs sample translation).styleFit =
        medianQ (((List.range (max 1 runs)).map (fun i =>
          match outputs i with
          | some p => judgeClampParsed p
          | none => heuristicScore sample translation)).map (fun s => s.styleFit)) ∧
     (judgeScore runs outputs sample translation).overall =
        medianQ (((List.range (max 1 runs)).map (fun i =>
          match outputs i with
          | some p => judgeClampParsed p
          | none => heuristicScore sample translation)).map (fun s => s.overall))) ∧
    (inUnit (judgeScore runs outputs sample translation).adequacy ∧
     inUnit (judgeScore runs outputs sample translation).fluency ∧
     inUnit (judgeScore runs outputs sample translation).constraintCompliance ∧
     inUnit (judgeScore runs outputs sample translation).styleFit ∧
     inUnit (judgeScore runs outputs sample translation).overall) := by
  refine ⟨⟨rfl, rfl, rfl, rfl, rfl⟩, ?_⟩
  have hmem : ∀ s ∈ ((List.range (max 1 runs)).map (fun i =>
      match outputs i with
      | some p => judgeClampParsed p
      | none => heuristicScore sample translation)),
      inUnit s.adequacy ∧ inUnit s.fluency ∧ inUnit s.constraintCompliance ∧
        inUnit s.styleFit ∧ inUnit s.overall := by
    intro s hs
    obtain ⟨i, _, rfl⟩ := List.mem_map.mp hs
    cases outputs i with
    | some p =>
      exact ⟨clamp01InUnit _, clamp01InUnit _, clamp01InUnit _, clamp01InUnit _,
        clamp01InUnit _⟩
    | none =>
      exact ⟨clamp01InUnit _, clamp01InUnit _, clamp01InUnit _, clamp01InUnit _,
        clamp01InUnit _⟩
  refine ⟨?_, ?_, ?_, ?_, ?_⟩ <;>
    (apply medianQInUnit _
       (by simp only [ne_eq, List.map_eq_nil_iff, List.range_eq_nil]; omega)
     intro x hx
     obtain ⟨s, hs, rfl⟩ := List.mem_map.mp hx) <;>
    first
      | exact (hmem s hs).1
      | exact (hmem s hs).2.1
      | exact (hmem s hs).2.2.1
      | exact (hmem s hs).2.2.2.1
      | exact (hmem s hs).2.2.2.2

end EvalRunner
